import Mathlib

/-!
Verification of the Phoria 3D renderer (`src/scripts/phoria-entity.js`):
a shallow embedding of the lighting evaluator, painter-sort comparator,
polygon inflation, canvas-renderer polygon path and software rasterizer,
together with theorems about their behaviour.

JavaScript numbers are modelled as real numbers.  Where the propagation of
NaN / Infinity is observable (polygon inflation) an explicit value type
`JSVal` with those special values is used instead.
-/

/-! ## 3-component vectors (gl-matrix `vec3` operations used by the renderer) -/

abbrev Vec3 := ℝ × ℝ × ℝ

def vadd (a b : Vec3) : Vec3 := (a.1 + b.1, a.2.1 + b.2.1, a.2.2 + b.2.2)

def smul (r : ℝ) (v : Vec3) : Vec3 := (r * v.1, r * v.2.1, r * v.2.2)

def neg3 (v : Vec3) : Vec3 := (-v.1, -v.2.1, -v.2.2)

def sub3 (a b : Vec3) : Vec3 := (a.1 - b.1, a.2.1 - b.2.1, a.2.2 - b.2.2)

def dot3 (a b : Vec3) : ℝ := a.1 * b.1 + a.2.1 * b.2.1 + a.2.2 * b.2.2

/-- `vec3.length`: Euclidean length. -/
noncomputable def len3 (v : Vec3) : ℝ := Real.sqrt (dot3 v v)

/-- `vec3.normalize`: divide each component by the length (the zero vector
stays zero, as in gl-matrix, since division by zero yields zero here). -/
noncomputable def norm3 (v : Vec3) : Vec3 :=
  (v.1 / len3 v, v.2.1 / len3 v, v.2.2 / len3 v)

/-! ## Lights

`Phoria.DistantLight` / `Phoria.PointLight` (phoria-entity.js lines 690-795).
A distant light stores its `direction`; its `worlddirection` is precomputed
by `transformToScene` as the componentwise negation (lines 728-734). -/

inductive Light where
  | distant (direction : Vec3) (color : Vec3) (intensity : ℝ)
  | point (worldposition : Vec3) (color : Vec3) (intensity : ℝ)
      (attenuation : ℝ) (attenuationFactor : String)

def Light.color : Light → Vec3
  | .distant _ c _ => c
  | .point _ c _ _ _ => c

/-- `DistantLight.transformToScene`: the world direction is the negated
light direction (lines 730-733). -/
def Light.worlddirection (d : Vec3) : Vec3 := neg3 d

/-- The `switch (light.attenuationFactor)` blocks of both brightness
functions: `"linear"` gives `attenuation * distance`, `"squared"` gives
`attenuation * distance * distance`, `"none"` and any other value give
`attenuation` (lines 880-892 and 933-945). -/
def attenuationValue (att : ℝ) (mode : String) (distance : ℝ) : ℝ :=
  if mode = "linear" then att * distance
  else if mode = "squared" then att * distance * distance
  else att

/-- `Phoria.Renderer.calcNormalBrightness` (lines 853-903): additive RGB
brightness for a surface normal.  A distant light adds
`dot(normal, worlddirection) * intensity` times its colour; a point light
computes the normalised vector to the light, skips the light entirely when
the dot product is non-positive (line 878), and otherwise adds
`dotVP * intensity / attenuation` times its colour. -/
noncomputable def calcNormalBrightness (position normal : Vec3)
    (lights : List Light) : Vec3 :=
  lights.foldl (fun rgb light =>
    match light with
    | .distant d c i => vadd rgb (smul (dot3 normal (Light.worlddirection d) * i) c)
    | .point wp c i att mode =>
        let vecToLight := sub3 position wp
        let distance := len3 vecToLight
        let nv := norm3 vecToLight
        let dotVP := dot3 normal (neg3 nv)
        if dotVP ≤ 0 then rgb
        else vadd rgb (smul (dotVP * i / attenuationValue att mode distance) c))
    (0, 0, 0)

/-- `Phoria.Renderer.calcPositionBrightness` (lines 913-960): additive RGB
brightness for a bare position (no normal).  A distant light adds flat
`intensity`; a point light adds `intensity / (attenuation * 2)`; no light
is ever skipped. -/
noncomputable def calcPositionBrightness (position : Vec3)
    (lights : List Light) : Vec3 :=
  lights.foldl (fun rgb light =>
    match light with
    | .distant _ c i => vadd rgb (smul i c)
    | .point wp c i att mode =>
        let vecToLight := sub3 position wp
        let distance := len3 vecToLight
        vadd rgb (smul (i / (attenuationValue att mode distance * 2)) c))
    (0, 0, 0)

/-! ## Claim-side lighting contributions (stated from the specification) -/

/-- Per-light surface contribution as the specification words it: a distant
light contributes `dot(normal, -direction) * intensity` (even when
negative); a point light contributes nothing when the dot of the normal
with the unit vector from the position toward the light is non-positive,
and otherwise that dot times `intensity / attenuation`. -/
noncomputable def specNormalContribution (position normal : Vec3) : Light → ℝ
  | .distant d _ i => dot3 normal (neg3 d) * i
  | .point wp _ i att mode =>
      let d := dot3 normal (norm3 (sub3 wp position))
      if d ≤ 0 then 0
      else d * i / attenuationValue att mode (len3 (sub3 wp position))

/-- Per-light positional contribution as the specification words it. -/
noncomputable def specPositionContribution (position : Vec3) : Light → ℝ
  | .distant _ _ i => i
  | .point wp _ i att mode =>
      i / (attenuationValue att mode (len3 (sub3 wp position)) * 2)

/-- Channel-wise sum of a list of RGB vectors. -/
def vecSum (l : List Vec3) : Vec3 := l.foldr vadd (0, 0, 0)

/-! ### Basic vector lemmas -/

theorem v3add_zero_left (v : Vec3) : vadd (0, 0, 0) v = v := by
  simp [vadd]

theorem v3add_assoc (a b c : Vec3) : vadd (vadd a b) c = vadd a (vadd b c) := by
  simp only [vadd]; refine Prod.ext ?_ (Prod.ext ?_ ?_) <;> simp <;> ring

theorem v3add_comm (a b : Vec3) : vadd a b = vadd b a := by
  simp [vadd]; constructor; ring; constructor <;> ring

theorem len3_neg3 (v : Vec3) : len3 (neg3 v) = len3 v := by
  unfold len3 neg3 dot3; ring_nf

theorem norm3_neg3 (v : Vec3) : norm3 (neg3 v) = neg3 (norm3 v) := by
  unfold norm3
  rw [len3_neg3]
  unfold neg3
  simp [neg_div]

theorem sub3_antisymm (a b : Vec3) : sub3 b a = neg3 (sub3 a b) := by
  simp [sub3, neg3]

theorem dot3_neg3_right (a b : Vec3) : dot3 a (neg3 b) = -dot3 a b := by
  simp [dot3, neg3]; ring

theorem v3add_zero_right (v : Vec3) : vadd v (0, 0, 0) = v := by
  simp [vadd]

/-- The vector a single light adds to the accumulator inside
`calcNormalBrightness` (a skipped point light adds the zero vector). -/
noncomputable def normalTerm (position normal : Vec3) : Light → Vec3
  | .distant d c i => smul (dot3 normal (Light.worlddirection d) * i) c
  | .point wp c i att mode =>
      let vecToLight := sub3 position wp
      let distance := len3 vecToLight
      let nv := norm3 vecToLight
      let dotVP := dot3 normal (neg3 nv)
      if dotVP ≤ 0 then (0, 0, 0)
      else smul (dotVP * i / attenuationValue att mode distance) c

/-- The vector a single light adds to the accumulator inside
`calcPositionBrightness`. -/
noncomputable def positionTerm (position : Vec3) : Light → Vec3
  | .distant _ c i => smul i c
  | .point wp c i att mode =>
      smul (i / (attenuationValue att mode (len3 (sub3 position wp)) * 2)) c

theorem foldl_vadd_eq_vecSum (g : Light → Vec3) (f : Vec3 → Light → Vec3)
    (hf : ∀ rgb l, f rgb l = vadd rgb (g l)) :
    ∀ (lights : List Light) (acc : Vec3),
      lights.foldl f acc = vadd acc (vecSum (lights.map g))
  | [], acc => (v3add_zero_right acc).symm
  | l :: ls, acc => by
      rw [List.foldl_cons, foldl_vadd_eq_vecSum g f hf ls (f acc l), hf,
        v3add_assoc]
      rfl

theorem calcNormalBrightness_eq_vecSum (p n : Vec3) (lights : List Light) :
    calcNormalBrightness p n lights =
      vecSum (lights.map (normalTerm p n)) := by
  unfold calcNormalBrightness
  rw [foldl_vadd_eq_vecSum (normalTerm p n) _ ?_ lights (0, 0, 0),
    v3add_zero_left]
  intro rgb l
  cases l with
  | distant d c i => rfl
  | point wp c i att mode =>
      simp only [normalTerm]
      split
      · rw [v3add_zero_right]
      · rfl

theorem calcPositionBrightness_eq_vecSum (p : Vec3) (lights : List Light) :
    calcPositionBrightness p lights =
      vecSum (lights.map (positionTerm p)) := by
  unfold calcPositionBrightness
  rw [foldl_vadd_eq_vecSum (positionTerm p) _ ?_ lights (0, 0, 0),
    v3add_zero_left]
  intro rgb l
  cases l with
  | distant d c i => rfl
  | point wp c i att mode => rfl

theorem normalTerm_eq_spec (p n : Vec3) (l : Light) :
    normalTerm p n l = smul (specNormalContribution p n l) l.color := by
  cases l with
  | distant d c i => rfl
  | point wp c i att mode =>
      simp only [normalTerm, specNormalContribution, Light.color]
      have hsub : sub3 wp p = neg3 (sub3 p wp) := sub3_antisymm p wp
      have hlen : len3 (sub3 wp p) = len3 (sub3 p wp) := by
        rw [hsub, len3_neg3]
      have hdot : dot3 n (norm3 (sub3 wp p))
          = dot3 n (neg3 (norm3 (sub3 p wp))) := by
        rw [hsub, norm3_neg3]
      rw [hdot, hlen]
      split
      · simp [smul]
      · rfl

theorem positionTerm_eq_spec (p : Vec3) (l : Light) :
    positionTerm p l = smul (specPositionContribution p l) l.color := by
  cases l with
  | distant d c i => rfl
  | point wp c i att mode =>
      simp only [positionTerm, specPositionContribution, Light.color]
      have hsub : sub3 wp p = neg3 (sub3 p wp) := sub3_antisymm p wp
      rw [hsub, len3_neg3]

/-- C1.  `calcNormalBrightness` returns the channel-wise sum over the lights
of the per-light contribution times the light colour, where a distant light
contributes `dot(normal, -direction) * intensity` (negative contributions
included) and a point light contributes nothing when the dot of the normal
with the unit vector toward the light is non-positive and otherwise that
dot times `intensity / attenuation`, with attenuation `factor`,
`factor * distance` or `factor * distance²` by mode. -/
theorem calcNormalBrightness_spec (p n : Vec3) (lights : List Light)
    (hatt : ∀ wp c i att m, Light.point wp c i att m ∈ lights → att ≠ 0) :
    calcNormalBrightness p n lights =
      vecSum (lights.map (fun l => smul (specNormalContribution p n l) l.color)) := by
  rw [calcNormalBrightness_eq_vecSum]
  congr 1
  exact List.map_congr_left (fun l _ => normalTerm_eq_spec p n l)

/-- C1 witness: a single point light with attenuation 0.1, mode "linear",
at distance 2 from the position, intensity 1, colour (1,1,1), lighting a
normal whose dot with the light direction is 1, yields brightness
`dot * 5 = 5` on every channel (scenario 3 of the specification). -/
theorem calcNormalBrightness_spec_witness :
    calcNormalBrightness (0, 0, 0) (0, 0, 1)
        [Light.point (0, 0, 2) (1, 1, 1) 1 (1/10) "linear"] = (5, 5, 5) := by
  have h := calcNormalBrightness_spec (0, 0, 0) (0, 0, 1)
      [Light.point (0, 0, 2) (1, 1, 1) 1 (1/10) "linear"]
      (by
        intro wp c i att m hm
        simp only [List.mem_singleton, Light.point.injEq] at hm
        rw [hm.2.2.2.1]
        norm_num)
  rw [h]
  have h4 : Real.sqrt 4 = 2 := by
    rw [show (4 : ℝ) = 2 ^ 2 by norm_num]
    exact Real.sqrt_sq (by norm_num)
  simp only [vecSum, List.map, List.foldr, specNormalContribution, Light.color,
    sub3, len3, norm3, dot3, neg3, attenuationValue, smul, vadd]
  norm_num [h4]

/-- C7.  `calcPositionBrightness` returns the channel-wise sum over the
lights of contribution times light colour, where a distant light contributes
flat `intensity` and a point light contributes
`intensity / (attenuation * 2)` with the mode-adjusted attenuation; no light
is skipped on any dot-product condition. -/
theorem calcPositionBrightness_spec (p : Vec3) (lights : List Light) :
    calcPositionBrightness p lights =
      vecSum (lights.map (fun l => smul (specPositionContribution p l) l.color)) := by
  rw [calcPositionBrightness_eq_vecSum]
  congr 1
  exact List.map_congr_left (fun l _ => positionTerm_eq_spec p l)

/-- C8.  Lighting is additive: evaluating with the light set `[A, B]` gives
the channel-wise sum of evaluating with `[A]` and with `[B]` alone, for both
`calcNormalBrightness` and `calcPositionBrightness`. -/
theorem brightness_additive (p n : Vec3) (A B : Light) :
    calcNormalBrightness p n [A, B] =
        vadd (calcNormalBrightness p n [A]) (calcNormalBrightness p n [B])
    ∧ calcPositionBrightness p [A, B] =
        vadd (calcPositionBrightness p [A]) (calcPositionBrightness p [B]) := by
  constructor
  · rw [calcNormalBrightness_eq_vecSum, calcNormalBrightness_eq_vecSum,
      calcNormalBrightness_eq_vecSum]
    simp only [List.map, vecSum, List.foldr]
    simp only [v3add_zero_right]
  · rw [calcPositionBrightness_eq_vecSum, calcPositionBrightness_eq_vecSum,
      calcPositionBrightness_eq_vecSum]
    simp only [List.map, vecSum, List.foldr]
    simp only [v3add_zero_right]

/-! ## Software rasterizer (`Phoria.SoftwareRenderer.drawTriangle`,
phoria-entity.js lines 1601-1686)

Screen coordinates are rationals; the pixel buffer is a byte array
modelled as a total function `ℤ → ℤ` from byte offsets to values. -/

/-- JavaScript `Math.round`: round to the nearest integer, halves toward
positive infinity. -/
def mathRound (q : ℚ) : ℤ := ⌊q + 1/2⌋

/-- 28.4 fixed-point conversion of one screen coordinate:
`Math.round(16 * x)` (lines 1606-1611). -/
def fpx (q : ℚ) : ℤ := mathRound (16 * q)

/-- Left edge of the clamped bounding box:
`Math.max((Math.min(x1,x2,x3) + 0xf) >> 4, 0)` (line 1634); the arithmetic
shift right by 4 is floor division by 16. -/
def triXmin (x1 x2 x3 : ℚ) : ℤ :=
  max (Int.fdiv (min (min (fpx x1) (fpx x2)) (fpx x3) + 15) 16) 0

/-- Right edge of the clamped bounding box (line 1635). -/
def triXmax (w : ℤ) (x1 x2 x3 : ℚ) : ℤ :=
  min (Int.fdiv (max (max (fpx x1) (fpx x2)) (fpx x3) + 15) 16) w

/-- Top edge of the clamped bounding box (line 1636). -/
def triYmin (y1 y2 y3 : ℚ) : ℤ :=
  max (Int.fdiv (min (min (fpx y1) (fpx y2)) (fpx y3) + 15) 16) 0

/-- Bottom edge of the clamped bounding box (line 1637). -/
def triYmax (h : ℤ) (y1 y2 y3 : ℚ) : ℤ :=
  min (Int.fdiv (max (max (fpx y1) (fpx y2)) (fpx y3) + 15) 16) h

/-- Constant part of the half-edge function for the directed edge from
`(xa,ya)` to `(xb,yb)`, including the top-left fill-convention correction:
`c = dy*xa - dx*ya`, incremented when `dy < 0 || (dy == 0 && dx > 0)`
(lines 1647-1654). -/
def edgeC (xa ya xb yb : ℚ) : ℤ :=
  (fpx ya - fpx yb) * fpx xa - (fpx xa - fpx xb) * fpx ya
    + (if fpx ya - fpx yb < 0 ∨ (fpx ya - fpx yb = 0 ∧ 0 < fpx xa - fpx xb)
       then 1 else 0)

/-- The half-edge function of the directed edge from `(xa,ya)` to `(xb,yb)`
evaluated at pixel `(px,py)`: the value the inner loop keeps in `cx`
(`c + dx*(y<<4) - dy*(x<<4)`, lines 1656-1680). -/
def edgeE (xa ya xb yb : ℚ) (px py : ℤ) : ℤ :=
  edgeC xa ya xb yb + (fpx xa - fpx xb) * (py * 16)
    - (fpx ya - fpx yb) * (px * 16)

/-- Pixel `(px,py)` is written by `drawTriangle`: it lies in the clamped
bounding box and all three half-edge functions are strictly positive
(line 1670). -/
def filledPixel (w h : ℤ) (x1 y1 x2 y2 x3 y3 : ℚ) (px py : ℤ) : Prop :=
  triXmin x1 x2 x3 ≤ px ∧ px < triXmax w x1 x2 x3 ∧
  triYmin y1 y2 y3 ≤ py ∧ py < triYmax h y1 y2 y3 ∧
  0 < edgeE x1 y1 x2 y2 px py ∧
  0 < edgeE x2 y2 x3 y3 px py ∧
  0 < edgeE x3 y3 x1 y1 px py

instance (w h : ℤ) (x1 y1 x2 y2 x3 y3 : ℚ) (px py : ℤ) :
    Decidable (filledPixel w h x1 y1 x2 y2 x3 y3 px py) := by
  unfold filledPixel; infer_instance

/-- One pixel write: `data[offset] = r; data[offset+1] = g;
data[offset+2] = b; data[offset+3] = 255` (lines 1672-1676). -/
def writeBytes (data : ℤ → ℤ) (off r g b : ℤ) : ℤ → ℤ :=
  fun i =>
    if i = off then r
    else if i = off + 1 then g
    else if i = off + 2 then b
    else if i = off + 3 then 255
    else data i

/-- Value a write stores at a byte offset `i` of some pixel: determined by
`i % 4` because every pixel's base offset is a multiple of 4. -/
def bval (r g b i : ℤ) : ℤ :=
  if i % 4 = 0 then r else if i % 4 = 1 then g else if i % 4 = 2 then b
  else 255

/-- The inner `for (x = xmin; x < xmax; x++)` scan of one row
(lines 1668-1681), with the remaining pixel count as fuel. -/
def rowLoop (w r g b fdy1 fdy2 fdy3 y : ℤ) :
    ℕ → ℤ → ℤ → ℤ → ℤ → (ℤ → ℤ) → (ℤ → ℤ)
  | 0, _, _, _, _, data => data
  | n + 1, x, cx1, cx2, cx3, data =>
      rowLoop w r g b fdy1 fdy2 fdy3 y n (x + 1)
        (cx1 - fdy1) (cx2 - fdy2) (cx3 - fdy3)
        (if 0 < cx1 ∧ 0 < cx2 ∧ 0 < cx3
         then writeBytes data ((x + y * w) * 4) r g b else data)

/-- The outer `for (y = ymin; y < ymax; y++)` scan (lines 1662-1685). -/
def colLoop (w r g b fdx1 fdx2 fdx3 fdy1 fdy2 fdy3 xmin xmax : ℤ) :
    ℕ → ℤ → ℤ → ℤ → ℤ → (ℤ → ℤ) → (ℤ → ℤ)
  | 0, _, _, _, _, data => data
  | m + 1, y, cy1, cy2, cy3, data =>
      colLoop w r g b fdx1 fdx2 fdx3 fdy1 fdy2 fdy3 xmin xmax m (y + 1)
        (cy1 + fdx1) (cy2 + fdx2) (cy3 + fdx3)
        (rowLoop w r g b fdy1 fdy2 fdy3 y (xmax - xmin).toNat xmin
          cy1 cy2 cy3 data)

/-- `Phoria.SoftwareRenderer.drawTriangle` (lines 1601-1686): convert the
three screen vertices to 28.4 fixed point, compute the clamped bounding
box, return the buffer unchanged when the box is degenerate, and otherwise
scan the box writing `(r,g,b,255)` at every pixel whose three corrected
half-edge values are strictly positive.  The starting accumulators `cy`
are the half-edge values at `(xmin, ymin)` and the loops maintain them
incrementally by `±16*dx` / `±16*dy` exactly as the source does. -/
def drawTriangle (w h : ℤ) (x1 y1 x2 y2 x3 y3 : ℚ) (r g b : ℤ)
    (data : ℤ → ℤ) : ℤ → ℤ :=
  if triXmax w x1 x2 x3 ≤ triXmin x1 x2 x3 ∨
     triYmax h y1 y2 y3 ≤ triYmin y1 y2 y3 then data
  else
    colLoop w r g b
      ((fpx x1 - fpx x2) * 16) ((fpx x2 - fpx x3) * 16) ((fpx x3 - fpx x1) * 16)
      ((fpx y1 - fpx y2) * 16) ((fpx y2 - fpx y3) * 16) ((fpx y3 - fpx y1) * 16)
      (triXmin x1 x2 x3) (triXmax w x1 x2 x3)
      (triYmax h y1 y2 y3 - triYmin y1 y2 y3).toNat (triYmin y1 y2 y3)
      (edgeE x1 y1 x2 y2 (triXmin x1 x2 x3) (triYmin y1 y2 y3))
      (edgeE x2 y2 x3 y3 (triXmin x1 x2 x3) (triYmin y1 y2 y3))
      (edgeE x3 y3 x1 y1 (triXmin x1 x2 x3) (triYmin y1 y2 y3))
      data

theorem writeBytes_eq (data : ℤ → ℤ) (off r g b i : ℤ) (hoff : off % 4 = 0) :
    writeBytes data off r g b i =
      if off ≤ i ∧ i < off + 4 then bval r g b i else data i := by
  unfold writeBytes bval
  split_ifs <;> first | rfl | omega

theorem edgeE_succ_x (xa ya xb yb : ℚ) (px py : ℤ) :
    edgeE xa ya xb yb px py - (fpx ya - fpx yb) * 16
      = edgeE xa ya xb yb (px + 1) py := by
  unfold edgeE; ring

theorem edgeE_succ_y (xa ya xb yb : ℚ) (px py : ℤ) :
    edgeE xa ya xb yb px py + (fpx xa - fpx xb) * 16
      = edgeE xa ya xb yb px (py + 1) := by
  unfold edgeE; ring

open scoped Classical in
/-- What one row scan does to one byte of the buffer. -/
theorem rowLoop_char (w r g b : ℤ) (x1 y1 x2 y2 x3 y3 : ℚ) (y : ℤ) :
    ∀ (n : ℕ) (x0 : ℤ) (data : ℤ → ℤ) (i : ℤ),
      rowLoop w r g b ((fpx y1 - fpx y2) * 16) ((fpx y2 - fpx y3) * 16)
          ((fpx y3 - fpx y1) * 16) y n x0
          (edgeE x1 y1 x2 y2 x0 y) (edgeE x2 y2 x3 y3 x0 y)
          (edgeE x3 y3 x1 y1 x0 y) data i
        = if ∃ x : ℤ, x0 ≤ x ∧ x < x0 + n ∧
              (0 < edgeE x1 y1 x2 y2 x y ∧ 0 < edgeE x2 y2 x3 y3 x y ∧
               0 < edgeE x3 y3 x1 y1 x y) ∧
              (x + y * w) * 4 ≤ i ∧ i < (x + y * w) * 4 + 4
          then bval r g b i else data i
  | 0, x0, data, i => by
      rw [rowLoop, if_neg]
      rintro ⟨x, hx1, hx2, -⟩
      omega
  | n + 1, x0, data, i => by
      rw [rowLoop, edgeE_succ_x, edgeE_succ_x, edgeE_succ_x,
        rowLoop_char w r g b x1 y1 x2 y2 x3 y3 y n (x0 + 1) _ i]
      by_cases hE : ∃ x : ℤ, x0 + 1 ≤ x ∧ x < x0 + 1 + n ∧
          (0 < edgeE x1 y1 x2 y2 x y ∧ 0 < edgeE x2 y2 x3 y3 x y ∧
           0 < edgeE x3 y3 x1 y1 x y) ∧
          (x + y * w) * 4 ≤ i ∧ i < (x + y * w) * 4 + 4
      · rw [if_pos hE, if_pos ?_]
        obtain ⟨x, k1, k2, k3, k4⟩ := hE
        exact ⟨x, by omega, by omega, k3, k4⟩
      · rw [if_neg hE]
        by_cases hin : 0 < edgeE x1 y1 x2 y2 x0 y ∧
            0 < edgeE x2 y2 x3 y3 x0 y ∧ 0 < edgeE x3 y3 x1 y1 x0 y
        · rw [if_pos hin, writeBytes_eq data ((x0 + y * w) * 4) r g b i (by omega)]
          by_cases hb : (x0 + y * w) * 4 ≤ i ∧ i < (x0 + y * w) * 4 + 4
          · rw [if_pos hb, if_pos ⟨x0, le_refl _, by omega, hin, hb⟩]
          · rw [if_neg hb, if_neg ?_]
            rintro ⟨x, k1, k2, k3, k4⟩
            rcases eq_or_lt_of_le k1 with rfl | hlt
            · exact hb k4
            · exact hE ⟨x, by omega, by omega, k3, k4⟩
        · rw [if_neg hin, if_neg ?_]
          rintro ⟨x, k1, k2, k3, k4⟩
          rcases eq_or_lt_of_le k1 with rfl | hlt
          · exact hin k3
          · exact hE ⟨x, by omega, by omega, k3, k4⟩

open scoped Classical in
/-- What the full box scan does to one byte of the buffer. -/
theorem colLoop_char (w r g b : ℤ) (x1 y1 x2 y2 x3 y3 : ℚ) (xmin xmax : ℤ) :
    ∀ (m : ℕ) (y0 : ℤ) (data : ℤ → ℤ) (i : ℤ),
      colLoop w r g b ((fpx x1 - fpx x2) * 16) ((fpx x2 - fpx x3) * 16)
          ((fpx x3 - fpx x1) * 16) ((fpx y1 - fpx y2) * 16)
          ((fpx y2 - fpx y3) * 16) ((fpx y3 - fpx y1) * 16) xmin xmax m y0
          (edgeE x1 y1 x2 y2 xmin y0) (edgeE x2 y2 x3 y3 xmin y0)
          (edgeE x3 y3 x1 y1 xmin y0) data i
        = if ∃ x y : ℤ, xmin ≤ x ∧ x < xmin + ((xmax - xmin).toNat : ℤ) ∧
              y0 ≤ y ∧ y < y0 + m ∧
              (0 < edgeE x1 y1 x2 y2 x y ∧ 0 < edgeE x2 y2 x3 y3 x y ∧
               0 < edgeE x3 y3 x1 y1 x y) ∧
              (x + y * w) * 4 ≤ i ∧ i < (x + y * w) * 4 + 4
          then bval r g b i else data i
  | 0, y0, data, i => by
      rw [colLoop, if_neg]
      rintro ⟨x, y, -, -, hy1, hy2, -⟩
      omega
  | m + 1, y0, data, i => by
      rw [colLoop, edgeE_succ_y, edgeE_succ_y, edgeE_succ_y,
        colLoop_char w r g b x1 y1 x2 y2 x3 y3 xmin xmax m (y0 + 1) _ i,
        rowLoop_char w r g b x1 y1 x2 y2 x3 y3 y0 (xmax - xmin).toNat xmin data i]
      by_cases hE : ∃ x y : ℤ, xmin ≤ x ∧ x < xmin + ((xmax - xmin).toNat : ℤ) ∧
          y0 + 1 ≤ y ∧ y < y0 + 1 + m ∧
          (0 < edgeE x1 y1 x2 y2 x y ∧ 0 < edgeE x2 y2 x3 y3 x y ∧
           0 < edgeE x3 y3 x1 y1 x y) ∧
          (x + y * w) * 4 ≤ i ∧ i < (x + y * w) * 4 + 4
      · rw [if_pos hE, if_pos ?_]
        obtain ⟨x, y, k1, k2, k3, k4, k5, k6⟩ := hE
        exact ⟨x, y, k1, k2, by omega, by omega, k5, k6⟩
      · rw [if_neg hE]
        by_cases hR : ∃ x : ℤ, xmin ≤ x ∧ x < xmin + ((xmax - xmin).toNat : ℤ) ∧
            (0 < edgeE x1 y1 x2 y2 x y0 ∧ 0 < edgeE x2 y2 x3 y3 x y0 ∧
             0 < edgeE x3 y3 x1 y1 x y0) ∧
            (x + y0 * w) * 4 ≤ i ∧ i < (x + y0 * w) * 4 + 4
        · rw [if_pos hR, if_pos ?_]
          obtain ⟨x, k1, k2, k3, k4⟩ := hR
          exact ⟨x, y0, k1, k2, le_refl _, by omega, k3, k4⟩
        · rw [if_neg hR, if_neg ?_]
          rintro ⟨x, y, k1, k2, k3, k4, k5, k6⟩
          rcases eq_or_lt_of_le k3 with rfl | hlt
          · exact hR ⟨x, k1, k2, k5, k6⟩
          · exact hE ⟨x, y, k1, k2, by omega, by omega, k5, k6⟩

open scoped Classical in
/-- Full byte-level characterisation of `drawTriangle`. -/
theorem drawTriangle_char (w h : ℤ) (x1 y1 x2 y2 x3 y3 : ℚ) (r g b : ℤ)
    (data : ℤ → ℤ) (i : ℤ) :
    drawTriangle w h x1 y1 x2 y2 x3 y3 r g b data i
      = if ∃ px py : ℤ, filledPixel w h x1 y1 x2 y2 x3 y3 px py ∧
            (px + py * w) * 4 ≤ i ∧ i < (px + py * w) * 4 + 4
        then bval r g b i else data i := by
  unfold drawTriangle
  split_ifs with hdeg hfill hfill
  · obtain ⟨px, py, hf, -⟩ := hfill
    obtain ⟨a1, a2, a3, a4, -⟩ := hf
    omega
  · rfl
  · rw [colLoop_char w r g b x1 y1 x2 y2 x3 y3 (triXmin x1 x2 x3)
      (triXmax w x1 x2 x3) (triYmax h y1 y2 y3 - triYmin y1 y2 y3).toNat
      (triYmin y1 y2 y3) data i, if_pos ?_]
    obtain ⟨px, py, hf, hb1, hb2⟩ := hfill
    obtain ⟨a1, a2, a3, a4, a5⟩ := hf
    exact ⟨px, py, a1, by omega, a3, by omega, a5, hb1, hb2⟩
  · rw [colLoop_char w r g b x1 y1 x2 y2 x3 y3 (triXmin x1 x2 x3)
      (triXmax w x1 x2 x3) (triYmax h y1 y2 y3 - triYmin y1 y2 y3).toNat
      (triYmin y1 y2 y3) data i, if_neg ?_]
    rintro ⟨px, py, k1, k2, k3, k4, k5, k6⟩
    exact hfill ⟨px, py, ⟨k1, by omega, k3, by omega, k5⟩, k6⟩

/-- C2.  `drawTriangle` converts each screen coordinate to 28.4 fixed point
(`fpx`, rounding 16 times the coordinate), is a no-op when the clamped
integer bounding box is degenerate, and otherwise writes exactly
`(r, g, b, 255)` to exactly the pixels of the clamped box at which all
three fill-convention-corrected half-edge functions are strictly positive
(`filledPixel`), leaving every other byte of the buffer unchanged. -/
theorem drawTriangle_spec (w h : ℤ) (x1 y1 x2 y2 x3 y3 : ℚ) (r g b : ℤ)
    (data : ℤ → ℤ) :
    (∀ px py : ℤ, filledPixel w h x1 y1 x2 y2 x3 y3 px py →
        drawTriangle w h x1 y1 x2 y2 x3 y3 r g b data ((px + py * w) * 4) = r ∧
        drawTriangle w h x1 y1 x2 y2 x3 y3 r g b data ((px + py * w) * 4 + 1) = g ∧
        drawTriangle w h x1 y1 x2 y2 x3 y3 r g b data ((px + py * w) * 4 + 2) = b ∧
        drawTriangle w h x1 y1 x2 y2 x3 y3 r g b data ((px + py * w) * 4 + 3) = 255)
    ∧ (∀ i : ℤ,
        (∀ px py : ℤ, filledPixel w h x1 y1 x2 y2 x3 y3 px py →
          i < (px + py * w) * 4 ∨ (px + py * w) * 4 + 4 ≤ i) →
        drawTriangle w h x1 y1 x2 y2 x3 y3 r g b data i = data i)
    ∧ ((triXmax w x1 x2 x3 ≤ triXmin x1 x2 x3 ∨
        triYmax h y1 y2 y3 ≤ triYmin y1 y2 y3) →
        ∀ i : ℤ, drawTriangle w h x1 y1 x2 y2 x3 y3 r g b data i = data i) := by
  refine ⟨?_, ?_, ?_⟩
  · intro px py hf
    refine ⟨?_, ?_, ?_, ?_⟩ <;>
      rw [drawTriangle_char, if_pos ⟨px, py, hf, by omega, by omega⟩] <;>
      unfold bval <;> split_ifs <;> first | rfl | omega
  · intro i hi
    rw [drawTriangle_char, if_neg]
    rintro ⟨px, py, hf, hb1, hb2⟩
    rcases hi px py hf with hlt | hge <;> omega
  · intro hdeg i
    rw [drawTriangle_char, if_neg]
    rintro ⟨px, py, hf, -⟩
    obtain ⟨a1, a2, a3, a4, -⟩ := hf
    omega

/-- C2 witness: the triangle with screen vertices (0,0), (0,4), (4,0) on a
10×10 canvas fills pixel (1,1); the call paints its four bytes with the
given colour and full alpha. -/
theorem drawTriangle_spec_witness :
    filledPixel 10 10 0 0 0 4 4 0 1 1 ∧
    drawTriangle 10 10 0 0 0 4 4 0 7 8 9 (fun _ => 0) 44 = 7 ∧
    drawTriangle 10 10 0 0 0 4 4 0 7 8 9 (fun _ => 0) 47 = 255 := by
  have hfp : filledPixel 10 10 0 0 0 4 4 0 1 1 := by
    norm_num [filledPixel, triXmin, triXmax, triYmin, triYmax, edgeE, edgeC,
      fpx, mathRound, Int.fdiv]
  have h := (drawTriangle_spec 10 10 0 0 0 4 4 0 7 8 9 (fun _ => 0)).1 1 1 hfp
  obtain ⟨h1, -, -, h4⟩ := h
  norm_num at h1 h4
  exact ⟨hfp, h1, h4⟩

theorem halfEdgeRevAux (Xa Ya Xb Yb px py : ℤ) :
    ((Ya - Yb) * Xa - (Xa - Xb) * Ya
        + (if Ya - Yb < 0 ∨ (Ya - Yb = 0 ∧ 0 < Xa - Xb) then (1 : ℤ) else 0)
        + (Xa - Xb) * (py * 16) - (Ya - Yb) * (px * 16))
      + ((Yb - Ya) * Xb - (Xb - Xa) * Yb
        + (if Yb - Ya < 0 ∨ (Yb - Ya = 0 ∧ 0 < Xb - Xa) then (1 : ℤ) else 0)
        + (Xb - Xa) * (py * 16) - (Yb - Ya) * (px * 16))
      = if Xa = Xb ∧ Ya = Yb then 0 else 1 := by
  split_ifs with h1 h2 h3 <;> try (exfalso; omega)
  all_goals ring

/-- The two directed half-edge functions of one undirected edge sum to 1
(to 0 when the edge collapses to a point in fixed-point coordinates):
exactly one side of the shared line owns each pixel. -/
theorem edgeE_add_rev (xa ya xb yb : ℚ) (px py : ℤ) :
    edgeE xa ya xb yb px py + edgeE xb yb xa ya px py
      = if fpx xa = fpx xb ∧ fpx ya = fpx yb then 0 else 1 := by
  unfold edgeE edgeC
  exact halfEdgeRevAux (fpx xa) (fpx ya) (fpx xb) (fpx yb) px py

/-- C5.  Two triangles sharing an edge with consistent winding (the shared
edge is traversed from vertex 1 to vertex 2 by the first triangle and in
the opposite direction by the second) never fill the same pixel, and a
pixel of the covered band along the shared edge — one inside both clamped
bounding boxes that strictly passes the four non-shared half-edge tests —
is filled by exactly one of the two triangles: no double-written pixel and
no gap pixel. -/
theorem drawTriangle_shared_edge (w h : ℤ) (x1 y1 x2 y2 x3 y3 x4 y4 : ℚ)
    (hedge : ¬(fpx x1 = fpx x2 ∧ fpx y1 = fpx y2)) :
    (∀ px py : ℤ, ¬(filledPixel w h x1 y1 x2 y2 x3 y3 px py ∧
        filledPixel w h x2 y2 x1 y1 x4 y4 px py))
    ∧ (∀ px py : ℤ,
        triXmin x1 x2 x3 ≤ px → px < triXmax w x1 x2 x3 →
        triYmin y1 y2 y3 ≤ py → py < triYmax h y1 y2 y3 →
        triXmin x2 x1 x4 ≤ px → px < triXmax w x2 x1 x4 →
        triYmin y2 y1 y4 ≤ py → py < triYmax h y2 y1 y4 →
        0 < edgeE x2 y2 x3 y3 px py → 0 < edgeE x3 y3 x1 y1 px py →
        0 < edgeE x1 y1 x4 y4 px py → 0 < edgeE x4 y4 x2 y2 px py →
        Xor' (filledPixel w h x1 y1 x2 y2 x3 y3 px py)
          (filledPixel w h x2 y2 x1 y1 x4 y4 px py)) := by
  have key : ∀ px py : ℤ,
      edgeE x1 y1 x2 y2 px py + edgeE x2 y2 x1 y1 px py = 1 := by
    intro px py
    rw [edgeE_add_rev, if_neg hedge]
  constructor
  · intro px py hc
    obtain ⟨hA, hB⟩ := hc
    unfold filledPixel at hA hB
    have hk := key px py
    omega
  · intro px py b1 b2 b3 b4 b5 b6 b7 b8 e1 e2 e3 e4
    have hk := key px py
    rcases lt_or_le 0 (edgeE x1 y1 x2 y2 px py) with hpos | hnp
    · left
      constructor
      · exact ⟨b1, b2, b3, b4, hpos, e1, e2⟩
      · intro hB
        unfold filledPixel at hB
        omega
    · right
      constructor
      · exact ⟨b5, b6, b7, b8, by omega, e3, e4⟩
      · intro hA
        unfold filledPixel at hA
        omega

/-- C5 witness: the 4×4 square split along the diagonal from (0,4) to
(4,0) into triangles ((0,4),(4,0),(0,0)) and ((4,0),(0,4),(4,4)); the
diagonal pixel (2,2) is filled by exactly one of the two, and pixel (1,1)
is not filled by both. -/
theorem drawTriangle_shared_edge_witness :
    Xor' (filledPixel 10 10 0 4 4 0 0 0 2 2)
        (filledPixel 10 10 4 0 0 4 4 4 2 2) ∧
    ¬(filledPixel 10 10 0 4 4 0 0 0 1 1 ∧
      filledPixel 10 10 4 0 0 4 4 4 1 1) := by
  have H := drawTriangle_shared_edge 10 10 0 4 4 0 0 0 4 4
    (by norm_num [fpx, mathRound])
  refine ⟨H.2 2 2 ?_ ?_ ?_ ?_ ?_ ?_ ?_ ?_ ?_ ?_ ?_ ?_, H.1 1 1⟩
  all_goals
    norm_num [triXmin, triXmax, triYmin, triYmax, edgeE, edgeC, fpx,
      mathRound, Int.fdiv]

/-! ## `Phoria.SoftwareRenderer.clearCanvasRect` (lines 1520-1534)

`offset` starts at `(xmin + ymin*width - 1)*4 + 3`; every inner-loop step
executes `data[offset += 4] = 0`; after each row `offset += linestep` with
`linestep = (width - (xmax - xmin))*4`. -/

/-- The inner `for (x = xmin; x < xmax; x++)` loop: `n` remaining steps,
`offset` the current (pre-increment) offset. -/
def clearRowLoop : ℕ → ℤ → (ℤ → ℤ) → (ℤ → ℤ)
  | 0, _, data => data
  | n + 1, offset, data =>
      clearRowLoop n (offset + 4) (fun i => if i = offset + 4 then 0 else data i)

/-- The outer `for (y = ymin; y < ymax; y++)` loop: `cols` writes per row,
then skip `linestep` bytes. -/
def clearColLoop (cols : ℕ) (linestep : ℤ) : ℕ → ℤ → (ℤ → ℤ) → (ℤ → ℤ)
  | 0, _, data => data
  | m + 1, offset, data =>
      clearColLoop cols linestep m (offset + 4 * cols + linestep)
        (clearRowLoop cols offset data)

/-- `clearCanvasRect(xmin, ymin, xmax, ymax)` over a canvas of width `w`. -/
def clearCanvasRect (w xmin ymin xmax ymax : ℤ) (data : ℤ → ℤ) : ℤ → ℤ :=
  clearColLoop (xmax - xmin).toNat ((w - (xmax - xmin)) * 4)
    (ymax - ymin).toNat ((xmin + ymin * w - 1) * 4 + 3) data

open scoped Classical in
theorem clearRowLoop_char :
    ∀ (n : ℕ) (offset : ℤ) (data : ℤ → ℤ) (i : ℤ),
      clearRowLoop n offset data i
        = if ∃ k : ℕ, k < n ∧ i = offset + 4 * (k + 1) then 0 else data i
  | 0, offset, data, i => by
      rw [clearRowLoop, if_neg]
      rintro ⟨k, hk, -⟩
      omega
  | n + 1, offset, data, i => by
      rw [clearRowLoop, clearRowLoop_char n (offset + 4) _ i]
      by_cases hE : ∃ k : ℕ, k < n ∧ i = offset + 4 + 4 * (k + 1)
      · rw [if_pos hE, if_pos ?_]
        obtain ⟨k, hk, rfl⟩ := hE
        exact ⟨k + 1, by omega, by push_cast; ring⟩
      · rw [if_neg hE]
        by_cases h0 : i = offset + 4
        · rw [if_pos h0, if_pos ⟨0, by omega, by omega⟩]
        · rw [if_neg h0, if_neg ?_]
          rintro ⟨k, hk, rfl⟩
          rcases Nat.eq_zero_or_pos k with rfl | hkpos
          · exact h0 (by ring)
          · exact hE ⟨k - 1, by omega, by push_cast; omega⟩

open scoped Classical in
theorem clearColLoop_char (cols : ℕ) (linestep : ℤ) :
    ∀ (m : ℕ) (offset : ℤ) (data : ℤ → ℤ) (i : ℤ),
      clearColLoop cols linestep m offset data i
        = if ∃ j k : ℕ, j < m ∧ k < cols ∧
              i = offset + j * (4 * cols + linestep) + 4 * (k + 1)
          then 0 else data i
  | 0, offset, data, i => by
      rw [clearColLoop, if_neg]
      rintro ⟨j, k, hj, -⟩
      omega
  | m + 1, offset, data, i => by
      rw [clearColLoop,
        clearColLoop_char cols linestep m (offset + 4 * cols + linestep) _ i,
        clearRowLoop_char cols offset data i]
      by_cases hE : ∃ j k : ℕ, j < m ∧ k < cols ∧
          i = offset + 4 * cols + linestep + j * (4 * cols + linestep) + 4 * (k + 1)
      · rw [if_pos hE, if_pos ?_]
        obtain ⟨j, k, hj, hk, rfl⟩ := hE
        exact ⟨j + 1, k, by omega, hk, by push_cast; ring⟩
      · rw [if_neg hE]
        by_cases hR : ∃ k : ℕ, k < cols ∧ i = offset + 4 * (k + 1)
        · rw [if_pos hR, if_pos ?_]
          obtain ⟨k, hk, rfl⟩ := hR
          exact ⟨0, k, by omega, hk, by push_cast; ring⟩
        · rw [if_neg hR, if_neg ?_]
          rintro ⟨j, k, hj, hk, rfl⟩
          rcases Nat.eq_zero_or_pos j with rfl | hjpos
          · exact hR ⟨k, hk, by push_cast; ring⟩
          · exact hE ⟨j - 1, k, by omega, hk, by
              push_cast
              have : (j : ℤ) = (j - 1 : ℕ) + 1 := by omega
              rw [this]
              push_cast
              ring⟩

open scoped Classical in
/-- C10.  For a rectangle within the canvas bounds, `clearCanvasRect`
writes 0 exactly at the alpha byte `(x + y*w)*4 + 3` of each pixel `(x,y)`
inside the rectangle and leaves every other byte — in particular every
red, green and blue byte — unchanged, so stale colour data persists under
the transparent pixels. -/
theorem clearCanvasRect_spec (w h xmin ymin xmax ymax : ℤ) (data : ℤ → ℤ)
    (hx0 : 0 ≤ xmin) (hx1 : xmin ≤ xmax) (hx2 : xmax ≤ w)
    (hy0 : 0 ≤ ymin) (hy1 : ymin ≤ ymax) (hy2 : ymax ≤ h) :
    ∀ i : ℤ,
      clearCanvasRect w xmin ymin xmax ymax data i
        = if ∃ x y : ℤ, xmin ≤ x ∧ x < xmax ∧ ymin ≤ y ∧ y < ymax ∧
              i = (x + y * w) * 4 + 3
          then 0 else data i := by
  intro i
  unfold clearCanvasRect
  rw [clearColLoop_char]
  have hcols : (((xmax - xmin).toNat : ℤ)) = xmax - xmin :=
    Int.toNat_of_nonneg (by omega)
  apply if_congr ?_ rfl rfl
  constructor
  · rintro ⟨j, k, hj, hk, rfl⟩
    refine ⟨xmin + (k : ℤ), ymin + (j : ℤ), by omega, by omega, by omega,
      by omega, ?_⟩
    rw [hcols]
    push_cast
    ring
  · rintro ⟨x, y, ha1, ha2, ha3, ha4, rfl⟩
    refine ⟨(y - ymin).toNat, (x - xmin).toNat, by omega, by omega, ?_⟩
    have hj : (((y - ymin).toNat : ℤ)) = y - ymin :=
      Int.toNat_of_nonneg (by omega)
    have hk : (((x - xmin).toNat : ℤ)) = x - xmin :=
      Int.toNat_of_nonneg (by omega)
    rw [hcols, hj, hk]
    ring

/-- C10 witness: clearing the rectangle [1,3)×[1,2) of a 4×3 canvas zeroes
the alpha byte of pixel (1,1) (offset 23) and leaves the blue byte at
offset 22 untouched. -/
theorem clearCanvasRect_spec_witness :
    clearCanvasRect 4 1 1 3 2 (fun _ => 7) 23 = 0 ∧
    clearCanvasRect 4 1 1 3 2 (fun _ => 7) 22 = 7 := by
  have H := clearCanvasRect_spec 4 3 1 1 3 2 (fun _ => 7) (by norm_num)
    (by norm_num) (by norm_num) (by norm_num) (by norm_num) (by norm_num)
  constructor
  · rw [H 23, if_pos ⟨1, 1, by norm_num, by norm_num, by norm_num,
      by norm_num, by norm_num⟩]
  · rw [H 22, if_neg ?_]
    rintro ⟨x, y, ha1, ha2, ha3, ha4, heq⟩
    omega

/-! ## `Phoria.Renderer.sortObjects` (lines 820-843) -/

/-- A render-list object as far as the sort comparator reads it: its style
sort mode string and its camera-space coordinate buffer. -/
structure SceneObj where
  sortmode : String
  coords : List (ℝ × ℝ × ℝ × ℝ)

/-- Modelled from the spec: `Phoria.Util.averageObjectZ` is not part of the
source excerpt (only its caller is); per the specification it is an
average-Z measure over the object's camera-space coordinates. -/
noncomputable def averageObjectZ (coords : List (ℝ × ℝ × ℝ × ℝ)) : ℝ :=
  ((coords.map (fun c => c.2.2.1)).sum) / coords.length

/-- The comparator `sortObjectsZ` (lines 829-841): when both objects are
"sorted", return 1 when `a` has the smaller average Z (so `a` orders after
`b`), else -1; otherwise return 1 when `a` is the "sorted" one, else -1.
(The `_averagez` memoisation caches a pure function of the coordinates, so
it is modelled by calling `averageObjectZ` directly.) -/
noncomputable def sortComparator (a b : SceneObj) : ℤ :=
  if a.sortmode = "sorted" ∧ b.sortmode = "sorted" then
    (if averageObjectZ a.coords < averageObjectZ b.coords then 1 else -1)
  else
    (if a.sortmode = "sorted" then 1 else -1)

/-- `a` may be placed before `b`: the comparator does not order `a` after
`b`. -/
noncomputable def sortLE (a b : SceneObj) : Prop := sortComparator a b ≤ 0

/-- Insert into the already-processed suffix, keeping `b` before `a`
whenever the comparator allows `b ≤ a` (a stable comparison sort step). -/
noncomputable def insertSorted (a : SceneObj) : List SceneObj → List SceneObj
  | [] => [a]
  | b :: bs =>
      if sortComparator b a ≤ 0 then b :: insertSorted a bs else a :: b :: bs

/-- `Array.prototype.sort` applied to the render list, modelled as a stable
comparison (insertion) sort consuming `sortObjectsZ`: any conforming sort
implementation agrees with it on every pair the comparator orders
consistently. -/
noncomputable def sortObjects : List SceneObj → List SceneObj
  | [] => []
  | a :: as => insertSorted a (sortObjects as)

theorem sortLE_total (a b : SceneObj) : sortLE a b ∨ sortLE b a := by
  unfold sortLE sortComparator
  by_cases ha : a.sortmode = "sorted"
  · by_cases hb : b.sortmode = "sorted"
    · rcases lt_or_le (averageObjectZ a.coords) (averageObjectZ b.coords) with
        hlt | hle
      · right
        rw [if_pos ⟨hb, ha⟩, if_neg (not_lt.mpr hlt.le)]
        norm_num
      · left
        rw [if_pos ⟨ha, hb⟩, if_neg (not_lt.mpr hle)]
        norm_num
    · right
      rw [if_neg (fun hcon => hb hcon.1), if_neg hb]
      norm_num
  · left
    rw [if_neg (fun hcon => ha hcon.1), if_neg ha]
    norm_num

theorem sortLE_trans (a b c : SceneObj) (hab : sortLE a b) (hbc : sortLE b c) :
    sortLE a c := by
  unfold sortLE sortComparator at *
  by_cases ha : a.sortmode = "sorted"
  · by_cases hb : b.sortmode = "sorted"
    · by_cases hc : c.sortmode = "sorted"
      · have h1 : ¬ averageObjectZ a.coords < averageObjectZ b.coords := by
          intro hlt
          rw [if_pos ⟨ha, hb⟩, if_pos hlt] at hab
          norm_num at hab
        have h2 : ¬ averageObjectZ b.coords < averageObjectZ c.coords := by
          intro hlt
          rw [if_pos ⟨hb, hc⟩, if_pos hlt] at hbc
          norm_num at hbc
        rw [if_pos ⟨ha, hc⟩,
          if_neg (not_lt.mpr (le_trans (not_lt.mp h2) (not_lt.mp h1)))]
        norm_num
      · rw [if_neg (fun hcon => hc hcon.2), if_pos hb] at hbc
        norm_num at hbc
    · rw [if_neg (fun hcon => hb hcon.2), if_pos ha] at hab
      norm_num at hab
  · rw [if_neg (fun hcon => ha hcon.1), if_neg ha]
    norm_num

theorem mem_insertSorted (a x : SceneObj) (l : List SceneObj) :
    x ∈ insertSorted a l → x = a ∨ x ∈ l := by
  induction l with
  | nil =>
      intro hx
      rw [insertSorted, List.mem_singleton] at hx
      exact Or.inl hx
  | cons b bs ih =>
      rw [insertSorted]
      split_ifs with hba
      · intro hx
        rcases List.mem_cons.mp hx with rfl | hx2
        · exact Or.inr (List.mem_cons_self _ _)
        · rcases ih hx2 with h | h
          · exact Or.inl h
          · exact Or.inr (List.mem_cons_of_mem _ h)
      · intro hx
        rcases List.mem_cons.mp hx with rfl | hx2
        · exact Or.inl rfl
        · exact Or.inr hx2

theorem pairwise_insertSorted (a : SceneObj) (l : List SceneObj)
    (h : List.Pairwise sortLE l) :
    List.Pairwise sortLE (insertSorted a l) := by
  induction l with
  | nil => exact List.pairwise_singleton _ _
  | cons b bs ih =>
      rw [insertSorted]
      rcases List.pairwise_cons.mp h with ⟨hb, hbs⟩
      split_ifs with hba
      · refine List.pairwise_cons.mpr ⟨?_, ih hbs⟩
        intro x hx
        rcases mem_insertSorted a x bs hx with rfl | hxbs
        · exact hba
        · exact hb x hxbs
      · refine List.pairwise_cons.mpr ⟨?_, h⟩
        intro x hx
        rcases List.mem_cons.mp hx with rfl | hxbs
        · rcases sortLE_total a x with hax | hxa
          · exact hax
          · exact absurd hxa hba
        · rcases sortLE_total a b with hab | hba2
          · exact sortLE_trans a b x hab (hb x hxbs)
          · exact absurd hba2 hba

theorem pairwise_sortObjects (l : List SceneObj) :
    List.Pairwise sortLE (sortObjects l) := by
  induction l with
  | nil => exact List.Pairwise.nil
  | cons a as ih => exact pairwise_insertSorted a (sortObjects as) ih

/-- C4 counterexample: on the two-object render list [sorted-object,
unsorted-object] the comparator returns 1 for (sorted, unsorted), so the
sort places the "unsorted" object FIRST — the claim says every "unsorted"
object is ordered after all "sorted" objects, which is false here. -/
theorem sortObjects_counterexample :
    sortObjects [⟨"sorted", []⟩, ⟨"unsorted", []⟩]
      = [⟨"unsorted", []⟩, ⟨"sorted", []⟩] := by
  have hcmp : sortComparator ⟨"unsorted", []⟩ ⟨"sorted", []⟩ = -1 := by
    unfold sortComparator
    rw [if_neg, if_neg]
    · decide
    · intro hcon
      exact absurd hcon.1 (by decide)
  simp only [sortObjects, insertSorted]
  rw [if_pos (by rw [hcmp]; norm_num)]

/-- C4 amended.  After `sortObjects`, every "unsorted" object is ordered
BEFORE all "sorted" objects (not after, as claimed), and the "sorted"
objects appear in descending order of average camera-space Z (farthest
first, ties toward farther by the first comparator branch). -/
theorem sortObjects_order (l : List SceneObj) :
    List.Pairwise (fun a b =>
      ¬(a.sortmode = "sorted" ∧ b.sortmode ≠ "sorted") ∧
      (a.sortmode = "sorted" → b.sortmode = "sorted" →
        averageObjectZ b.coords ≤ averageObjectZ a.coords))
      (sortObjects l) := by
  refine (pairwise_sortObjects l).imp ?_
  intro a b hab
  unfold sortLE sortComparator at hab
  constructor
  · rintro ⟨ha, hb⟩
    rw [if_neg (fun hcon => hb hcon.2), if_pos ha] at hab
    norm_num at hab
  · intro ha hb
    by_contra hlt
    rw [if_pos ⟨ha, hb⟩, if_pos (not_le.mp hlt)] at hab
    norm_num at hab

/-! ## JavaScript float values with NaN and infinities

`inflatePolygon` divides by a computed edge length and tests
`Math.abs(...) > 1.5`, so NaN/Infinity propagation is observable there.
`JSVal` models an IEEE double as a real number, `+Infinity`, `-Infinity`
or `NaN` (negative zero is conflated with zero; no rounding). -/

inductive JSVal where
  | fin (x : ℝ)
  | inf
  | ninf
  | nan

namespace JSVal

noncomputable def jadd : JSVal → JSVal → JSVal
  | nan, _ => nan
  | _, nan => nan
  | fin a, fin b => fin (a + b)
  | fin _, inf => inf
  | fin _, ninf => ninf
  | inf, fin _ => inf
  | inf, inf => inf
  | inf, ninf => nan
  | ninf, fin _ => ninf
  | ninf, inf => nan
  | ninf, ninf => ninf

noncomputable def jsub : JSVal → JSVal → JSVal
  | nan, _ => nan
  | _, nan => nan
  | fin a, fin b => fin (a - b)
  | fin _, inf => ninf
  | fin _, ninf => inf
  | inf, fin _ => inf
  | inf, inf => nan
  | inf, ninf => inf
  | ninf, fin _ => ninf
  | ninf, inf => ninf
  | ninf, ninf => nan

noncomputable def jmul : JSVal → JSVal → JSVal
  | nan, _ => nan
  | _, nan => nan
  | fin a, fin b => fin (a * b)
  | fin a, inf => if a = 0 then nan else if 0 < a then inf else ninf
  | fin a, ninf => if a = 0 then nan else if 0 < a then ninf else inf
  | inf, fin b => if b = 0 then nan else if 0 < b then inf else ninf
  | ninf, fin b => if b = 0 then nan else if 0 < b then ninf else inf
  | inf, inf => inf
  | inf, ninf => ninf
  | ninf, inf => ninf
  | ninf, ninf => inf

noncomputable def jdiv : JSVal → JSVal → JSVal
  | nan, _ => nan
  | _, nan => nan
  | fin a, fin b =>
      if b = 0 then (if a = 0 then nan else if 0 < a then inf else ninf)
      else fin (a / b)
  | fin _, inf => fin 0
  | fin _, ninf => fin 0
  | inf, fin b => if 0 ≤ b then inf else ninf
  | ninf, fin b => if 0 ≤ b then ninf else inf
  | inf, inf => nan
  | inf, ninf => nan
  | ninf, inf => nan
  | ninf, ninf => nan

noncomputable def jneg : JSVal → JSVal
  | fin a => fin (-a)
  | inf => ninf
  | ninf => inf
  | nan => nan

noncomputable def jabs : JSVal → JSVal
  | fin a => fin |a|
  | inf => inf
  | ninf => inf
  | nan => nan

/-- `Math.sqrt`: NaN on negative input. -/
noncomputable def jsqrt : JSVal → JSVal
  | fin a => if a < 0 then nan else fin (Real.sqrt a)
  | inf => inf
  | ninf => nan
  | nan => nan

/-- The JavaScript `>` comparison: every comparison with NaN is false. -/
noncomputable def jgt : JSVal → JSVal → Bool
  | nan, _ => false
  | _, nan => false
  | fin a, fin b => decide (b < a)
  | fin _, inf => false
  | fin _, ninf => true
  | inf, fin _ => true
  | inf, inf => false
  | inf, ninf => true
  | ninf, _ => false

end JSVal

/-! ## `Phoria.Renderer.inflatePolygon` / `intersection` (lines 962-1036) -/

/-- One parallel offset edge (lines 966-996): outward normal
`(dx, dy) = (y2-y1, -(x2-x1))` normalised, scaled by 0.5, added to both
endpoints. -/
noncomputable def pedgeOf (p1 p2 : JSVal × JSVal) :
    (JSVal × JSVal) × (JSVal × JSVal) :=
  let dx0 := JSVal.jsub p2.2 p1.2
  let dy0 := JSVal.jneg (JSVal.jsub p2.1 p1.1)
  let len := JSVal.jsqrt (JSVal.jadd (JSVal.jmul dx0 dx0) (JSVal.jmul dy0 dy0))
  let dx := JSVal.jmul (JSVal.jdiv dx0 len) (JSVal.fin (1/2))
  let dy := JSVal.jmul (JSVal.jdiv dy0 len) (JSVal.fin (1/2))
  ((JSVal.jadd p1.1 dx, JSVal.jadd p1.2 dy),
   (JSVal.jadd p2.1 dx, JSVal.jadd p2.2 dy))

/-- `Phoria.Renderer.intersection` (lines 1022-1036): 2D line-line
intersection via `t = (b1*c2 - b2*c1) / (a2*b1 - a1*b2)`. -/
noncomputable def intersection (l0v0 l0v1 l1v0 l1v1 : JSVal × JSVal) :
    JSVal × JSVal :=
  let a1 := JSVal.jsub l0v1.1 l0v0.1
  let b1 := JSVal.jsub l1v0.1 l1v1.1
  let c1 := JSVal.jsub l1v0.1 l0v0.1
  let a2 := JSVal.jsub l0v1.2 l0v0.2
  let b2 := JSVal.jsub l1v0.2 l1v1.2
  let c2 := JSVal.jsub l1v0.2 l0v0.2
  let t := JSVal.jdiv (JSVal.jsub (JSVal.jmul b1 c2) (JSVal.jmul b2 c1))
    (JSVal.jsub (JSVal.jmul a2 b1) (JSVal.jmul a1 b2))
  (JSVal.jadd l0v0.1 (JSVal.jmul t (JSVal.jsub l0v1.1 l0v0.1)),
   JSVal.jadd l0v0.2 (JSVal.jmul t (JSVal.jsub l0v1.2 l0v0.2)))

/-- `Phoria.Renderer.inflatePolygon` (lines 962-1020): build the parallel
offset edges, then set each output vertex to the intersection of the two
adjacent offset edges, falling back to the original vertex when the
intersection deviates from it by more than 1.5 in either axis. -/
noncomputable def inflatePolygon (vertices : List ℕ)
    (coords : ℕ → JSVal × JSVal) : List (JSVal × JSVal) :=
  let n := vertices.length
  let pts := vertices.map coords
  let pedges := (List.range n).map (fun i =>
    pedgeOf (pts.getD i (.nan, .nan)) (pts.getD ((i + 1) % n) (.nan, .nan)))
  (List.range n).map (fun i =>
    let prev := pedges.getD ((i + n - 1) % n) ((.nan, .nan), (.nan, .nan))
    let cur := pedges.getD i ((.nan, .nan), (.nan, .nan))
    let vec := intersection prev.1 prev.2 cur.1 cur.2
    let orig := pts.getD i (.nan, .nan)
    if JSVal.jgt (JSVal.jabs (JSVal.jsub vec.1 orig.1)) (.fin (3/2)) ||
       JSVal.jgt (JSVal.jabs (JSVal.jsub vec.2 orig.2)) (.fin (3/2))
    then orig else vec)

namespace JSVal

theorem jadd_nan_left (x : JSVal) : jadd nan x = nan := by
  cases x <;> rfl

theorem jadd_nan_right (x : JSVal) : jadd x nan = nan := by
  cases x <;> rfl

theorem jsub_nan_left (x : JSVal) : jsub nan x = nan := by
  cases x <;> rfl

theorem jsub_nan_right (x : JSVal) : jsub x nan = nan := by
  cases x <;> rfl

theorem jmul_nan_left (x : JSVal) : jmul nan x = nan := by
  cases x <;> rfl

theorem jmul_nan_right (x : JSVal) : jmul x nan = nan := by
  cases x <;> rfl

theorem jdiv_nan_left (x : JSVal) : jdiv nan x = nan := by
  cases x <;> rfl

theorem jdiv_nan_right (x : JSVal) : jdiv x nan = nan := by
  cases x <;> rfl

theorem jgt_nan_left (x : JSVal) : jgt nan x = false := by
  cases x <;> rfl

theorem jgt_nan_right (x : JSVal) : jgt x nan = false := by
  cases x <;> rfl

theorem jadd_fin (a b : ℝ) : jadd (fin a) (fin b) = fin (a + b) := rfl

theorem jsub_fin (a b : ℝ) : jsub (fin a) (fin b) = fin (a - b) := rfl

theorem jmul_fin (a b : ℝ) : jmul (fin a) (fin b) = fin (a * b) := rfl

theorem jabs_nan : jabs nan = nan := rfl

theorem jneg_fin (a : ℝ) : jneg (fin a) = fin (-a) := rfl

end JSVal

/-- C6 (code defect evidence): inflating the degenerate triangle with
vertex list [0,1,2] and screen coordinates (0,0), (0,0), (3,4) — its first
edge has zero length.  The normal computation divides 0/0 = NaN, the NaN
propagates through the adjacent-edge intersection, the `> 1.5` fallback
guard is false on NaN, and the first output vertex is (NaN, NaN) instead
of the original vertex required by the guard's stated purpose. -/
theorem inflatePolygon_nan :
    (inflatePolygon [0, 1, 2] (fun v =>
        if v = 0 then (.fin 0, .fin 0)
        else if v = 1 then (.fin 0, .fin 0)
        else (.fin 3, .fin 4))).getD 0 (.fin 0, .fin 0)
      = (.nan, .nan) := by
  have hrange : List.range 3 = [0, 1, 2] := by decide
  unfold inflatePolygon pedgeOf intersection
  simp only [List.length_cons, List.length_nil, List.map_cons, List.map_nil,
    hrange, List.getD_cons_zero, List.getD_cons_succ]
  norm_num [JSVal.jadd_nan_left, JSVal.jadd_nan_right, JSVal.jsub_nan_left,
    JSVal.jsub_nan_right, JSVal.jmul_nan_left, JSVal.jmul_nan_right,
    JSVal.jdiv_nan_left, JSVal.jdiv_nan_right, JSVal.jgt_nan_left,
    JSVal.jgt_nan_right, JSVal.jabs_nan, JSVal.jadd_fin, JSVal.jsub_fin,
    JSVal.jmul_fin, JSVal.jneg_fin, JSVal.jsqrt, JSVal.jdiv,
    Real.sqrt_zero, Real.sqrt_eq_zero']

/-! ## Render objects and polygon rendering (lines 1239-1443 and 1536-1599) -/

/-- Shade mode strings used by the solid-polygon paths. -/
inductive ShadeMode where
  | plain
  | lightsource

/-- Fill mode strings of the canvas renderer's solid path. -/
inductive FillMode where
  | fill
  | filltwice
  | inflate
  | fillstroke
  | hiddenline

/-- The style fields `renderPolygon` reads. -/
structure EStyle where
  color : ℤ × ℤ × ℤ
  doublesided : Bool
  hiddenangle : ℝ
  shademode : ShadeMode
  fillmode : FillMode

/-- A polygon of a render-list object: vertex indices, optional texture
index, optional per-polygon colour override, world-space face normal. -/
structure CPoly where
  vertices : List ℕ
  texture : Option ℕ
  color : Option (ℤ × ℤ × ℤ)
  worldnormal : Vec3

/-- A render-list object, parametric in the screen-coordinate type
(rationals for the software renderer, `JSVal` for the canvas renderer):
style, screen coordinates, world coordinates, per-vertex clip flags, and
texture bitmap dimensions. -/
structure RenderObj (γ : Type) where
  style : EStyle
  coords : ℕ → γ × γ
  worldcoords : ℕ → Vec3
  clip : ℕ → Bool
  textures : ℕ → ℤ × ℤ

/-- Modelled from the spec: `Phoria.Util.averagePolyVertex` is not part of
the source excerpt; per the specification the lighting position is the
polygon's world-space average vertex (centroid). -/
noncomputable def averagePolyVertex (vertices : List ℕ)
    (coords : ℕ → Vec3) : Vec3 :=
  (((vertices.map (fun v => (coords v).1)).sum) / vertices.length,
   ((vertices.map (fun v => (coords v).2.1)).sum) / vertices.length,
   ((vertices.map (fun v => (coords v).2.2)).sum) / vertices.length)

/-- One canvas 2D-context operation emitted by the canvas renderer. -/
inductive COp where
  | save
  | restore
  | beginPath
  | closePath
  | clipPath
  | fill
  | stroke
  | moveTo (p : JSVal × JSVal)
  | lineTo (p : JSVal × JSVal)
  | transform (m11 m12 m21 m22 dx dy : JSVal)
  | drawImage (texture : ℕ)
  | setFillStyle (c : Option (ℤ × ℤ × ℤ))
  | setStrokeStyle (c : Option (ℤ × ℤ × ℤ))
  | setFillStyleRGBA (c : ℤ × ℤ × ℤ) (alpha : ℝ)

/-- The polygon is dropped before any drawing: either every vertex carries
a clip flag (lines 1248-1253 / 1544-1549) or the object is not
double-sided and the dot of the camera position with the polygon's world
normal is below the hidden-angle threshold (line 1256 / 1552). -/
def polyCulled (style : EStyle) (clip : ℕ → Bool) (vertices : List ℕ)
    (normal position : Vec3) : Prop :=
  (∀ v ∈ vertices, clip v = true) ∨
  (style.doublesided = false ∧ dot3 position normal < style.hiddenangle)

/-- The local `fRenderTriangle` closure of the canvas `renderPolygon`
(lines 1290-1323): path, clip, affine transform solved from the three
destination vertices and three source corners, then `drawImage`. -/
noncomputable def fRenderTriangle (tex : ℕ) (vs : List (JSVal × JSVal))
    (sx0 sy0 sx1 sy1 sx2 sy2 : JSVal) : List COp :=
  match vs with
  | (x0, y0) :: (x1, y1) :: (x2, y2) :: rest =>
      let denom := JSVal.jdiv (.fin 1)
        (JSVal.jadd
          (JSVal.jadd
            (JSVal.jsub (JSVal.jmul sx0 (JSVal.jsub sy2 sy1))
              (JSVal.jmul sx1 sy2))
            (JSVal.jmul sx2 sy1))
          (JSVal.jmul (JSVal.jsub sx1 sx2) sy0))
      let m11 := JSVal.jmul (JSVal.jneg
        (JSVal.jadd
          (JSVal.jadd
            (JSVal.jsub (JSVal.jmul sy0 (JSVal.jsub x2 x1))
              (JSVal.jmul sy1 x2))
            (JSVal.jmul sy2 x1))
          (JSVal.jmul (JSVal.jsub sy1 sy2) x0))) denom
      let m12 := JSVal.jmul
        (JSVal.jadd
          (JSVal.jsub
            (JSVal.jadd (JSVal.jmul sy1 y2)
              (JSVal.jmul sy0 (JSVal.jsub y1 y2)))
            (JSVal.jmul sy2 y1))
          (JSVal.jmul (JSVal.jsub sy2 sy1) y0)) denom
      let m21 := JSVal.jmul
        (JSVal.jadd
          (JSVal.jadd
            (JSVal.jsub (JSVal.jmul sx0 (JSVal.jsub x2 x1))
              (JSVal.jmul sx1 x2))
            (JSVal.jmul sx2 x1))
          (JSVal.jmul (JSVal.jsub sx1 sx2) x0)) denom
      let m22 := JSVal.jmul (JSVal.jneg
        (JSVal.jadd
          (JSVal.jsub
            (JSVal.jadd (JSVal.jmul sx1 y2)
              (JSVal.jmul sx0 (JSVal.jsub y1 y2)))
            (JSVal.jmul sx2 y1))
          (JSVal.jmul (JSVal.jsub sx2 sx1) y0))) denom
      let dx := JSVal.jmul
        (JSVal.jadd
          (JSVal.jadd
            (JSVal.jmul sx0 (JSVal.jsub (JSVal.jmul sy2 x1) (JSVal.jmul sy1 x2)))
            (JSVal.jmul sy0 (JSVal.jsub (JSVal.jmul sx1 x2) (JSVal.jmul sx2 x1))))
          (JSVal.jmul (JSVal.jsub (JSVal.jmul sx2 sy1) (JSVal.jmul sx1 sy2)) x0))
        denom
      let dy := JSVal.jmul
        (JSVal.jadd
          (JSVal.jadd
            (JSVal.jmul sx0 (JSVal.jsub (JSVal.jmul sy2 y1) (JSVal.jmul sy1 y2)))
            (JSVal.jmul sy0 (JSVal.jsub (JSVal.jmul sx1 y2) (JSVal.jmul sx2 y1))))
          (JSVal.jmul (JSVal.jsub (JSVal.jmul sx2 sy1) (JSVal.jmul sx1 sy2)) y0))
        denom
      [COp.beginPath, COp.moveTo (x0, y0)] ++
      (((x1, y1) :: (x2, y2) :: rest).map COp.lineTo) ++
      [COp.closePath, COp.clipPath,
       COp.transform m11 m12 m21 m22 dx dy, COp.drawImage tex]
  | _ => []

/-- `Phoria.CanvasRenderer.renderPolygon` (lines 1239-1443) as the list of
2D-context operations it performs: clip-flag and hidden-surface culling,
fill-style computation by shade mode, then either the texture-mapping
branch (triangle, quad, or — for any other vertex count — no drawing) or
the solid path with its five fill modes. -/
noncomputable def canvasRenderPolygon (obj : RenderObj JSVal) (poly : CPoly)
    (position : Vec3) (lights : List Light) : List COp :=
  if poly.vertices.all obj.clip then []
  else if obj.style.doublesided = false ∧
      dot3 position poly.worldnormal < obj.style.hiddenangle then []
  else
    let color := poly.color.getD obj.style.color
    let rgbF := calcNormalBrightness
      (averagePolyVertex poly.vertices obj.worldcoords) poly.worldnormal lights
    let fillStyle : Option (ℤ × ℤ × ℤ) :=
      match obj.style.shademode with
      | .plain => if poly.texture = none then some color else none
      | .lightsource =>
          some (min (⌈rgbF.1 * (color.1 : ℝ)⌉) 255,
                min (⌈rgbF.2.1 * (color.2.1 : ℝ)⌉) 255,
                min (⌈rgbF.2.2 * (color.2.2 : ℝ)⌉) 255)
    match poly.texture with
    | some tex =>
        let bw : ℝ := ((obj.textures tex).1 : ℝ)
        let bh : ℝ := ((obj.textures tex).2 : ℝ)
        let inflated := inflatePolygon poly.vertices obj.coords
        let styleOps : List COp :=
          match fillStyle with
          | some fs =>
              let alpha := min (rgbF.1 * 0.3 + rgbF.2.1 * 0.6 + rgbF.2.2 * 0.1) 1
              [COp.setFillStyleRGBA fs (1 - alpha)]
          | none => []
        [COp.save] ++ styleOps ++
        (if poly.vertices.length = 3 then
          fRenderTriangle tex inflated
            (.fin 0) (.fin 0) (.fin bw) (.fin 0) (.fin bw) (.fin bh) ++
          (match fillStyle with
           | some _ => [COp.fill]
           | none => [])
         else if poly.vertices.length = 4 then
          [COp.save] ++
          fRenderTriangle tex (inflated.take 3)
            (.fin 0) (.fin 0) (.fin bw) (.fin 0) (.fin bw) (.fin bh) ++
          [COp.restore, COp.save] ++
          fRenderTriangle tex
            [inflated.getD 2 (.nan, .nan), inflated.getD 3 (.nan, .nan),
             inflated.getD 0 (.nan, .nan)]
            (.fin bw) (.fin bh) (.fin 0) (.fin bh) (.fin 0) (.fin 0) ++
          [COp.restore] ++
          (match fillStyle with
           | some _ =>
              [COp.beginPath, COp.moveTo (inflated.getD 0 (.nan, .nan))] ++
              ((inflated.drop 1).map COp.lineTo) ++ [COp.closePath, COp.fill]
           | none => [])
         else []) ++
        [COp.restore]
    | none =>
        let pathOps : List COp :=
          match obj.style.fillmode with
          | .inflate =>
              let inflated := inflatePolygon poly.vertices obj.coords
              [COp.beginPath, COp.moveTo (inflated.getD 0 (.nan, .nan))] ++
              (((List.range poly.vertices.length).drop 1).map
                (fun i => COp.lineTo (inflated.getD i (.nan, .nan)))) ++
              [COp.closePath]
          | _ =>
              [COp.beginPath,
               COp.moveTo (obj.coords (poly.vertices.getD 0 0))] ++
              ((poly.vertices.drop 1).map (fun v => COp.lineTo (obj.coords v))) ++
              [COp.closePath]
        let fmOps : List COp :=
          match obj.style.fillmode with
          | .fill => [COp.setFillStyle fillStyle, COp.fill]
          | .filltwice => [COp.setFillStyle fillStyle, COp.fill, COp.fill]
          | .inflate => [COp.setFillStyle fillStyle, COp.fill]
          | .fillstroke => [COp.setFillStyle fillStyle, COp.fill,
              COp.setStrokeStyle fillStyle, COp.stroke]
          | .hiddenline => [COp.setStrokeStyle fillStyle, COp.stroke]
        [COp.save] ++ pathOps ++ fmOps ++ [COp.restore]

/-- `Phoria.SoftwareRenderer.renderPolygon` (lines 1536-1599): the same
culling, then flat shading and one `drawTriangle` call per triangle (two
for a quad, with vertex orders (2,1,0) and (0,3,2)); returns whether the
polygon was rendered together with the updated pixel buffer. -/
noncomputable def swRenderPolygon (w h : ℤ) (obj : RenderObj ℚ) (poly : CPoly)
    (position : Vec3) (lights : List Light) (data : ℤ → ℤ) :
    Bool × (ℤ → ℤ) :=
  if poly.vertices.all obj.clip then (false, data)
  else if obj.style.doublesided = false ∧
      dot3 position poly.worldnormal < obj.style.hiddenangle then (false, data)
  else
    let color := poly.color.getD obj.style.color
    let rgb : ℤ × ℤ × ℤ :=
      match obj.style.shademode with
      | .plain => color
      | .lightsource =>
          let f := calcNormalBrightness
            (averagePolyVertex poly.vertices obj.worldcoords)
            poly.worldnormal lights
          (⌈min (f.1 * (color.1 : ℝ)) 255⌉,
           ⌈min (f.2.1 * (color.2.1 : ℝ)) 255⌉,
           ⌈min (f.2.2 * (color.2.2 : ℝ)) 255⌉)
    let c := obj.coords
    let v := poly.vertices
    let d1 := drawTriangle w h
      (c (v.getD 2 0)).1 (c (v.getD 2 0)).2
      (c (v.getD 1 0)).1 (c (v.getD 1 0)).2
      (c (v.getD 0 0)).1 (c (v.getD 0 0)).2
      rgb.1 rgb.2.1 rgb.2.2 data
    let d2 := if v.length = 4 then
        drawTriangle w h
          (c (v.getD 0 0)).1 (c (v.getD 0 0)).2
          (c (v.getD 3 0)).1 (c (v.getD 3 0)).2
          (c (v.getD 2 0)).1 (c (v.getD 2 0)).2
          rgb.1 rgb.2.1 rgb.2.2 d1
      else d1
    (true, d2)

/-- C3.  A polygon all of whose vertices are flagged clipped, or — when the
object is not double-sided — whose world normal dotted with the camera
position falls below the hidden-angle threshold, produces no output: the
software renderer returns false leaving the pixel buffer untouched and the
canvas renderer emits no context operation at all.  A polygon satisfying
neither condition proceeds: the software renderer returns true and the
canvas renderer emits a non-empty operation list. -/
theorem renderPolygon_culling (w h : ℤ) (objQ : RenderObj ℚ)
    (objJ : RenderObj JSVal) (poly : CPoly) (position : Vec3)
    (lights : List Light) (data : ℤ → ℤ)
    (hstyle : objJ.style = objQ.style) (hclip : objJ.clip = objQ.clip) :
    (polyCulled objQ.style objQ.clip poly.vertices poly.worldnormal position →
        swRenderPolygon w h objQ poly position lights data = (false, data) ∧
        canvasRenderPolygon objJ poly position lights = [])
    ∧ (¬ polyCulled objQ.style objQ.clip poly.vertices poly.worldnormal
          position →
        (swRenderPolygon w h objQ poly position lights data).1 = true ∧
        canvasRenderPolygon objJ poly position lights ≠ []) := by
  have hall : (poly.vertices.all objQ.clip = true) ↔
      ∀ v ∈ poly.vertices, objQ.clip v = true := List.all_eq_true
  constructor
  · intro hc
    by_cases hAll : poly.vertices.all objQ.clip = true
    · constructor
      · unfold swRenderPolygon
        rw [if_pos hAll]
      · unfold canvasRenderPolygon
        rw [hclip, if_pos hAll]
    · have hhid : objQ.style.doublesided = false ∧
          dot3 position poly.worldnormal < objQ.style.hiddenangle := by
        rcases hc with hgood | hh
        · exact absurd (hall.mpr hgood) hAll
        · exact hh
      constructor
      · unfold swRenderPolygon
        rw [if_neg hAll, if_pos hhid]
      · unfold canvasRenderPolygon
        rw [hclip, hstyle, if_neg hAll, if_pos hhid]
  · intro hnc
    obtain ⟨hnA, hnB⟩ := not_or.mp hnc
    have hAll : ¬ (poly.vertices.all objQ.clip = true) :=
      fun hcon => hnA (hall.mp hcon)
    constructor
    · unfold swRenderPolygon
      rw [if_neg hAll, if_neg hnB]
    · unfold canvasRenderPolygon
      rw [hclip, hstyle, if_neg hAll, if_neg hnB]
      cases poly.texture <;> simp

/-- An all-clipped triangle for the C3 witness. -/
def clippedPoly : CPoly := ⟨[0, 1, 2], none, none, (0, 0, 1)⟩

/-- Software-renderer object whose vertices are all flagged clipped. -/
def clippedObjQ : RenderObj ℚ :=
  ⟨⟨(255, 0, 0), true, 0, .plain, .fill⟩, fun _ => (0, 0),
   fun _ => (0, 0, 0), fun _ => true, fun _ => (0, 0)⟩

/-- Canvas-renderer object whose vertices are all flagged clipped. -/
def clippedObjJ : RenderObj JSVal :=
  ⟨⟨(255, 0, 0), true, 0, .plain, .fill⟩, fun _ => (.fin 0, .fin 0),
   fun _ => (0, 0, 0), fun _ => true, fun _ => (0, 0)⟩

/-- C3 witness: a triangle with all three vertices flagged clipped emits
zero pixels and zero draw calls (end-to-end scenario 4). -/
theorem renderPolygon_culling_witness :
    swRenderPolygon 10 10 clippedObjQ clippedPoly (0, 0, 0) [] (fun _ => 0)
        = (false, fun _ => 0) ∧
    canvasRenderPolygon clippedObjJ clippedPoly (0, 0, 0) [] = [] :=
  (renderPolygon_culling 10 10 clippedObjQ clippedObjJ clippedPoly (0, 0, 0)
      [] (fun _ => 0) rfl rfl).1
    (Or.inl (fun v _ => rfl))

/-- Operations that draw, build a path, clip, transform or paint — i.e.
everything except `save`/`restore` and style assignments. -/
def isDrawOp : COp → Bool
  | .save => false
  | .restore => false
  | .setFillStyle _ => false
  | .setStrokeStyle _ => false
  | .setFillStyleRGBA _ _ => false
  | _ => true

/-- C9 amended.  For a non-culled polygon carrying a texture reference and
more than 4 vertices, the canvas `renderPolygon` neither throws nor emits
any diagnostic: both `vertices.length === 3` and `=== 4` branches are
skipped, so the call silently performs no path, clip, transform, image,
fill or stroke operation and returns normally. -/
theorem canvasRenderPolygon_texture_silent (obj : RenderObj JSVal)
    (poly : CPoly) (position : Vec3) (lights : List Light) (tex : ℕ)
    (htex : poly.texture = some tex) (hlen : 5 ≤ poly.vertices.length)
    (hnc : ¬ polyCulled obj.style obj.clip poly.vertices poly.worldnormal
      position) :
    (canvasRenderPolygon obj poly position lights).filter isDrawOp = [] := by
  obtain ⟨hnA, hnB⟩ := not_or.mp hnc
  have hAll : ¬ (poly.vertices.all obj.clip = true) :=
    fun hcon => hnA (List.all_eq_true.mp hcon)
  unfold canvasRenderPolygon
  rw [if_neg hAll, if_neg hnB, htex]
  have h3 : ¬ (poly.vertices.length = 3) := by omega
  have h4 : ¬ (poly.vertices.length = 4) := by omega
  cases hm : obj.style.shademode <;>
    simp [h3, h4, htex, isDrawOp]

/-- A five-vertex polygon with a texture reference. -/
def texPoly5 : CPoly := ⟨[0, 1, 2, 3, 4], some 0, none, (0, 0, 1)⟩

/-- A double-sided, plain-shaded, unclipped canvas object. -/
def texObjJ : RenderObj JSVal :=
  ⟨⟨(255, 0, 0), true, 0, .plain, .fill⟩, fun _ => (.fin 0, .fin 0),
   fun _ => (0, 0, 0), fun _ => false, fun _ => (8, 8)⟩

/-- C9 counterexample: on a non-culled five-vertex polygon with a texture
reference the canvas `renderPolygon` returns normally having emitted only
`save` and `restore` — no exception, no diagnostic, no drawing — so the
claim that it fails fast with a clear diagnostic is false at this input. -/
theorem canvasRenderPolygon_texture_counterexample :
    canvasRenderPolygon texObjJ texPoly5 (0, 0, 0) []
      = [COp.save, COp.restore] := by
  unfold canvasRenderPolygon texObjJ texPoly5
  norm_num
  simp

/-- C9 witness for the amended claim: the same five-vertex textured
polygon, via the amended theorem, emits no drawing operation. -/
theorem canvasRenderPolygon_texture_silent_witness :
    (canvasRenderPolygon texObjJ texPoly5 (0, 0, 0) []).filter isDrawOp
      = [] := by
  refine canvasRenderPolygon_texture_silent texObjJ texPoly5 (0, 0, 0) [] 0
    rfl (by norm_num [texPoly5]) ?_
  rintro (hA | hB)
  · exact absurd (hA 0 (by norm_num [texPoly5])) (by norm_num [texObjJ])
  · exact absurd hB.1 (by norm_num [texObjJ])
